import Mathlib

/-!
# Monty core runtime: a shallow embedding of the heap, exception and builtin layers

This file embeds the reference-counted heap arena (`src/src/heap.rs`), the
exception model (`src/src/exceptions.rs`), the prepare-stage constant folding
(`src/src/prepare.rs`, `src/tests/main.rs`) and the `sum`/`print` builtins of
the `crates/monty` crate, and proves the claims of the specification against
that embedding.  Machine integers are modelled as `Nat`/`Int` with explicit
reduction modulo `2 ^ 64` where the code hashes; fallible operations
(Rust panics, `Result`) are modelled with `Option`/`Except`.
-/

namespace Monty

/-- `HeapId` (src/src/heap.rs): index of a slot in the heap arena. -/
abbrev HeapId := Nat

/-- Modelled from the spec (§3): the `Value` tagged union (`crate::value` is
not under `src/`): `None`, `Bool`, `Int(i64)`, `Float(f64)` (kept abstractly
as its 64-bit pattern, no claim computes with floats), `Builtin(id)` and
`Ref(HeapId)`. -/
inductive Value where
  | none
  | bool (b : Bool)
  | int (i : Int)
  | float (bits : Nat)
  | builtin (id : Nat)
  | ref (id : HeapId)
deriving DecidableEq

/-- `HeapData` (src/src/heap.rs lines 23-30): every runtime value that lives
in the arena.  The payload types `Str`, `Bytes`, `List`, `Tuple`, `Dict`
(`crate::values`) are modelled from the spec (§3) as text, octet sequence,
value sequences and an insertion-ordered association list. -/
inductive HeapData where
  | str (s : String)
  | bytes (b : List Nat)
  | list (xs : List Value)
  | tuple (xs : List Value)
  | dict (kvs : List (Value × Value))
deriving DecidableEq

/-- `HashState` (src/src/heap.rs lines 236-244). -/
inductive HashState where
  | unknown
  | cached (h : Nat)
  | unhashable
deriving DecidableEq

/-- `HashState::for_data` (src/src/heap.rs lines 246-253): `Unknown` for
`Str`, `Bytes`, `Tuple`; `Unhashable` for everything else. -/
def HashState.for_data : HeapData → HashState
  | .str _ | .bytes _ | .tuple _ => .unknown
  | _ => .unhashable

/-- `HeapValue` (src/src/heap.rs lines 266-273): refcount, payload
(`Option` to support the temporary borrow), hash cache. -/
structure HeapValue where
  refcount : Nat
  data : Option HeapData
  hash_state : HashState
deriving DecidableEq

/-- `Heap` (src/src/heap.rs lines 281-286): slot array plus free list.
A `none` slot is a freed slot. -/
structure Heap where
  entries : List (Option HeapValue)
  free_list : List HeapId
deriving DecidableEq

/-- The `Ref` ids a single `Value` owns: `[id]` for `Ref(id)`, nothing for
immediates. -/
def Value.refIds : Value → List HeapId
  | .ref id => [id]
  | _ => []

/-- Modelled from the spec (§4.D): the per-variant `py_dec_ref_ids`
implementations (`crate::values`) are not under `src/`; the trait row says it
"must enumerate every `Ref` field exactly once", so `Str`/`Bytes` report
nothing, `List`/`Tuple` the refs of their elements, `Dict` the refs of every
key and value.  `HeapData::py_dec_ref_ids` (src/src/heap.rs lines 105-113)
dispatches on the variant. -/
def pyDecRefIds : HeapData → List HeapId
  | .str _ | .bytes _ => []
  | .list xs | .tuple xs => (xs.map Value.refIds).flatten
  | .dict kvs => (kvs.map (fun kv => kv.1.refIds ++ kv.2.refIds)).flatten

/-- Child ids of an optional payload: a borrowed (`none`) payload reports no
children, matching the `if let Some(mut data) = value.data` guard in
`Heap::dec_ref`. -/
def pyDecRefIdsOpt : Option HeapData → List HeapId
  | some d => pyDecRefIds d
  | Option.none => []

/-- Children reported by one slot: a freed slot reports none. -/
def slotChildCount : Option HeapValue → Nat
  | some hv => (pyDecRefIdsOpt hv.data).length
  | Option.none => 0

/-- Total number of child references reported by a slot list; it bounds the
number of slot frees a single `dec_ref` cascade can perform. -/
def childSumL (es : List (Option HeapValue)) : Nat :=
  (es.map slotChildCount).sum

/-- Total child-reference count of the heap. -/
def childSum (h : Heap) : Nat := childSumL h.entries

/-- Outcome of the `dec_ref` worker: a new heap, a Rust panic (missing or
already-freed slot), or exhausted fuel (never reached from `Heap.dec_ref`,
whose fuel is sufficient by `decRefList_eq_decRefFold`). -/
inductive DecRes where
  | ok (h : Heap)
  | panicked
  | fuelOut
deriving DecidableEq

/-- Worklist form of `Heap::dec_ref` (src/src/heap.rs lines 373-392): process
the ids in order; refcount above one is decremented in place, otherwise the
slot is vacated, its id pushed on the free list, and the payload's children
spliced in front of the remaining work — exactly the depth-first order of the
recursive `for child_id in child_ids { self.dec_ref(child_id) }`.  One unit
of fuel is spent per processed id. -/
def decRefList : Nat → Heap → List HeapId → DecRes
  | _, h, [] => .ok h
  | 0, _, _ :: _ => .fuelOut
  | fuel + 1, h, id :: rest =>
    match h.entries[id]? with
    | some (some hv) =>
      if 1 < hv.refcount then
        decRefList fuel
          ⟨h.entries.set id (some ⟨hv.refcount - 1, hv.data, hv.hash_state⟩), h.free_list⟩ rest
      else
        decRefList fuel
          ⟨h.entries.set id Option.none, id :: h.free_list⟩ (pyDecRefIdsOpt hv.data ++ rest)
    | _ => .panicked

/-- `Heap::dec_ref` (src/src/heap.rs lines 373-392), with fuel
`childSum h + 1`, which `decRefList_eq_decRefFold` shows is always enough. -/
def Heap.dec_ref (h : Heap) (id : HeapId) : DecRes :=
  decRefList (childSum h + 1) h [id]

/-- Sequential `dec_ref` over a list of ids, as the freed payload's children
are released one after the other. -/
def decRefFold : Heap → List HeapId → DecRes
  | h, [] => .ok h
  | h, id :: rest =>
    match h.dec_ref id with
    | .ok h' => decRefFold h' rest
    | e => e

theorem decRefList_nil (f : Nat) (h : Heap) : decRefList f h [] = .ok h := by
  cases f <;> rfl

theorem decRefFold_append (l₁ : List HeapId) (h : Heap) (l₂ : List HeapId) :
    decRefFold h (l₁ ++ l₂) =
      match decRefFold h l₁ with
      | .ok h' => decRefFold h' l₂
      | e => e := by
  induction l₁ generalizing h with
  | nil => simp [decRefFold]
  | cons id rest ih =>
    simp only [List.cons_append, decRefFold]
    cases h.dec_ref id with
    | ok h' => exact ih h'
    | panicked => rfl
    | fuelOut => rfl

theorem list_lt_of_getElem? {α : Type} (l : List α) (i : Nat) (x : α)
    (hx : l[i]? = some x) : i < l.length := by
  by_contra hge
  rw [List.getElem?_eq_none (by omega)] at hx
  exact Option.noConfusion hx

theorem list_getElem?_set_eq {α : Type} (l : List α) (i : Nat) (x : α)
    (hi : i < l.length) : (l.set i x)[i]? = some x := by
  induction l generalizing i with
  | nil => simp at hi
  | cons a as ih =>
    cases i with
    | zero => simp
    | succ j =>
      simp only [List.set_cons_succ, List.getElem?_cons_succ]
      exact ih j (by simpa using hi)

theorem list_getElem?_set_ne {α : Type} (l : List α) (i j : Nat) (x : α)
    (hne : i ≠ j) : (l.set i x)[j]? = l[j]? := by
  induction l generalizing i j with
  | nil => simp
  | cons a as ih =>
    cases i with
    | zero =>
      cases j with
      | zero => exact absurd rfl hne
      | succ k => simp
    | succ i' =>
      cases j with
      | zero => simp
      | succ k =>
        simp only [List.set_cons_succ, List.getElem?_cons_succ]
        exact ih i' k (fun hh => hne (by rw [hh]))

theorem list_set_of_getElem? {α : Type} (l : List α) (i : Nat) (x : α)
    (hx : l[i]? = some x) : l.set i x = l := by
  induction l generalizing i with
  | nil => simp
  | cons a as ih =>
    cases i with
    | zero => simp_all
    | succ j =>
      simp only [List.getElem?_cons_succ] at hx
      simp [ih j hx]

theorem childSumL_set (es : List (Option HeapValue)) (i : Nat)
    (e e' : Option HeapValue) (hget : es[i]? = some e) :
    childSumL (es.set i e') + slotChildCount e = childSumL es + slotChildCount e' := by
  induction es generalizing i with
  | nil => simp at hget
  | cons a as ih =>
    cases i with
    | zero =>
      simp only [List.getElem?_cons_zero, Option.some.injEq] at hget
      subst hget
      simp [childSumL]
      omega
    | succ j =>
      simp only [List.getElem?_cons_succ] at hget
      have := ih j hget
      simp only [List.set_cons_succ, childSumL, List.map_cons, List.sum_cons] at *
      omega

theorem childSumL_set_same_count (es : List (Option HeapValue)) (i : Nat)
    (e e' : Option HeapValue) (hget : es[i]? = some e)
    (hcnt : slotChildCount e' = slotChildCount e) :
    childSumL (es.set i e') = childSumL es := by
  have := childSumL_set es i e e' hget
  omega

theorem childSumL_set_none (es : List (Option HeapValue)) (i : Nat)
    (hv : HeapValue) (hget : es[i]? = some (some hv)) :
    childSumL (es.set i Option.none) + (pyDecRefIdsOpt hv.data).length = childSumL es := by
  have := childSumL_set es i (some hv) Option.none hget
  simp only [slotChildCount] at this
  omega

/-- With fuel at least the worklist length plus the heap's total child count,
the worklist worker `decRefList` computes exactly the sequential
`dec_ref`-per-id fold: fuel never runs out and the depth-first splicing agrees
with the recursive child release of `Heap::dec_ref`. -/
theorem decRefList_eq_decRefFold :
    ∀ f h l, l.length + childSum h ≤ f → decRefList f h l = decRefFold h l := by
  intro f
  induction f using Nat.strong_induction_on with
  | _ f ihf =>
    intro h l hfuel
    cases l with
    | nil => rw [decRefList_nil]; rfl
    | cons id rest =>
      obtain ⟨f', rfl⟩ : ∃ f', f = f' + 1 := by
        cases f with
        | zero => simp at hfuel
        | succ k => exact ⟨k, rfl⟩
      simp only [List.length_cons] at hfuel
      have hfold : decRefFold h (id :: rest) =
          match h.dec_ref id with
          | .ok h' => decRefFold h' rest
          | e => e := rfl
      cases hget : h.entries[id]? with
      | none =>
        have hlhs : decRefList (f' + 1) h (id :: rest) = .panicked := by
          simp [decRefList, hget]
        have hone : h.dec_ref id = .panicked := by
          simp [Heap.dec_ref, decRefList, hget]
        rw [hlhs, hfold, hone]
      | some slot =>
        cases slot with
        | none =>
          have hlhs : decRefList (f' + 1) h (id :: rest) = .panicked := by
            simp [decRefList, hget]
          have hone : h.dec_ref id = .panicked := by
            simp [Heap.dec_ref, decRefList, hget]
          rw [hlhs, hfold, hone]
        | some hv =>
          by_cases hrc : 1 < hv.refcount
          · -- decrement in place
            set h1 : Heap :=
              ⟨h.entries.set id (some ⟨hv.refcount - 1, hv.data, hv.hash_state⟩), h.free_list⟩
              with hh1
            have hlhs : decRefList (f' + 1) h (id :: rest) = decRefList f' h1 rest := by
              simp [decRefList, hget, hrc]
            have hcs1 : childSum h1 = childSum h :=
              childSumL_set_same_count h.entries id (some hv) _ hget rfl
            have hone : h.dec_ref id = .ok h1 := by
              show decRefList (childSum h + 1) h [id] = .ok h1
              simp [decRefList, hget, hrc, decRefList_nil]
            have hrest : decRefList f' h1 rest = decRefFold h1 rest := by
              apply ihf f' (by omega)
              omega
            rw [hlhs, hrest, hfold, hone]
          · -- free the slot, splice in the children
            set h2 : Heap :=
              ⟨h.entries.set id Option.none, id :: h.free_list⟩ with hh2
            have hlhs : decRefList (f' + 1) h (id :: rest) =
                decRefList f' h2 (pyDecRefIdsOpt hv.data ++ rest) := by
              simp [decRefList, hget, hrc]
            have hcs2 : childSum h2 + (pyDecRefIdsOpt hv.data).length = childSum h :=
              childSumL_set_none h.entries id hv hget
            have hone : h.dec_ref id = decRefList (childSum h) h2 (pyDecRefIdsOpt hv.data) := by
              show decRefList (childSum h + 1) h [id] = _
              simp [decRefList, hget, hrc, List.append_nil]
            have hchild : decRefList (childSum h) h2 (pyDecRefIdsOpt hv.data) =
                decRefFold h2 (pyDecRefIdsOpt hv.data) := by
              apply ihf (childSum h) (by omega)
              omega
            have hall : decRefList f' h2 (pyDecRefIdsOpt hv.data ++ rest) =
                decRefFold h2 (pyDecRefIdsOpt hv.data ++ rest) := by
              apply ihf f' (by omega)
              simp only [List.length_append]
              omega
            rw [hlhs, hall, decRefFold_append, hfold, hone, hchild]

/-- **C1.** `dec_ref(id)` on a live entry with refcount `r`: if `r > 1` it
only decrements the refcount, the entry stays live with payload and
hash_state unchanged and nothing else moves; if `r == 1` it vacates the slot,
pushes `id` onto the free list, and then runs `dec_ref` on every child id the
payload's `py_dec_ref_ids` reports, one after the other — recursively
releasing the whole ownership tree (src/src/heap.rs lines 373-392). -/
theorem dec_ref_correct (h : Heap) (id : HeapId) (hv : HeapValue)
    (hlive : h.entries[id]? = some (some hv)) :
    (1 < hv.refcount →
      h.dec_ref id =
        .ok ⟨h.entries.set id (some ⟨hv.refcount - 1, hv.data, hv.hash_state⟩),
          h.free_list⟩) ∧
    (hv.refcount = 1 →
      h.dec_ref id =
        decRefFold ⟨h.entries.set id Option.none, id :: h.free_list⟩
          (pyDecRefIdsOpt hv.data)) := by
  constructor
  · intro hrc
    show decRefList (childSum h + 1) h [id] = _
    simp [decRefList, hlive, hrc, decRefList_nil]
  · intro hrc
    have hnot : ¬ 1 < hv.refcount := by omega
    show decRefList (childSum h + 1) h [id] = _
    have hcs2 : childSum ⟨h.entries.set id Option.none, id :: h.free_list⟩
        + (pyDecRefIdsOpt hv.data).length = childSum h :=
      childSumL_set_none h.entries id hv hlive
    have hstep : decRefList (childSum h + 1) h [id] =
        decRefList (childSum h) ⟨h.entries.set id Option.none, id :: h.free_list⟩
          (pyDecRefIdsOpt hv.data) := by
      simp [decRefList, hlive, hnot, List.append_nil]
    rw [hstep]
    apply decRefList_eq_decRefFold
    omega

/-- Witness for C1: a two-slot heap where slot 0 is a one-element list owning
slot 1; `dec_ref 0` vacates slot 0, pushes it on the free list, and the
cascade then frees the child slot 1 as well. -/
theorem dec_ref_correct_witness :
    (Heap.dec_ref ⟨[some ⟨1, some (.list [.ref 1]), .unhashable⟩,
        some ⟨1, some (.str "a"), .unknown⟩], []⟩ 0 =
      decRefFold ⟨[Option.none, some ⟨1, some (.str "a"), .unknown⟩], [0]⟩ [1]) ∧
    (Heap.dec_ref ⟨[some ⟨1, some (.list [.ref 1]), .unhashable⟩,
        some ⟨1, some (.str "a"), .unknown⟩], []⟩ 0 =
      .ok ⟨[Option.none, Option.none], [1, 0]⟩) ∧
    (Heap.dec_ref ⟨[some ⟨2, some (.str "b"), .unknown⟩], []⟩ 0 =
      .ok ⟨[some ⟨1, some (.str "b"), .unknown⟩], []⟩) := by
  refine ⟨?_, by decide, ?_⟩
  · have h2 := (dec_ref_correct ⟨[some ⟨1, some (.list [.ref 1]), .unhashable⟩,
        some ⟨1, some (.str "a"), .unknown⟩], []⟩ 0
        ⟨1, some (.list [.ref 1]), .unhashable⟩ rfl).2 rfl
    simpa using h2
  · have h1 := (dec_ref_correct ⟨[some ⟨2, some (.str "b"), .unknown⟩], []⟩ 0
        ⟨2, some (.str "b"), .unknown⟩ rfl).1 (by decide)
    simpa using h1

/-- `Heap::allocate` (src/src/heap.rs lines 331-349): build the entry with
`refcount = 1` and `hash_state` from `HashState::for_data`, pop a slot from
the free list when one is available, else append at index `entries.len()`.
The Rust slot store `self.entries[id] = Some(new_entry)` panics when the
popped id is out of range, modelled as `Option.none`. -/
def Heap.allocate (h : Heap) (data : HeapData) : Option (Heap × HeapId) :=
  let new_entry : HeapValue := ⟨1, some data, HashState.for_data data⟩
  match h.free_list with
  | id :: rest =>
    if id < h.entries.length then
      some (⟨h.entries.set id (some new_entry), rest⟩, id)
    else
      Option.none
  | [] => some (⟨h.entries ++ [some new_entry], []⟩, h.entries.length)

/-- One steady-state step: allocate a payload, then immediately `dec_ref` the
fresh id (P2's alloc/dec-ref pair). -/
def allocDecPair (data : HeapData) (h : Heap) : Option Heap :=
  match h.allocate data with
  | some (h1, id) =>
    match h1.dec_ref id with
    | .ok h2 => some h2
    | _ => Option.none
  | Option.none => Option.none

/-- `n` alloc/dec-ref pairs in sequence. -/
def allocDecIter (data : HeapData) : Nat → Heap → Option Heap
  | 0, h => some h
  | n + 1, h =>
    match allocDecPair data h with
    | some h1 => allocDecIter data n h1
    | Option.none => Option.none

theorem decRefList_length (f : Nat) (h : Heap) (l : List HeapId) (h' : Heap)
    (hok : decRefList f h l = .ok h') :
    h'.entries.length = h.entries.length := by
  induction f generalizing h l with
  | zero =>
    cases l with
    | nil => rw [decRefList_nil] at hok; cases hok; rfl
    | cons id rest => exact absurd hok (by simp [decRefList])
  | succ f ih =>
    cases l with
    | nil => rw [decRefList_nil] at hok; cases hok; rfl
    | cons id rest =>
      rw [decRefList] at hok
      split at hok
      · split at hok
        · have := ih _ _ hok
          simpa using this
        · have := ih _ _ hok
          simpa using this
      · exact absurd hok (by simp)

theorem decRefList_free_list (f : Nat) (h : Heap) (l : List HeapId) (h' : Heap)
    (hok : decRefList f h l = .ok h') :
    ∃ pre, h'.free_list = pre ++ h.free_list := by
  induction f generalizing h l with
  | zero =>
    cases l with
    | nil => rw [decRefList_nil] at hok; cases hok; exact ⟨[], rfl⟩
    | cons id rest => exact absurd hok (by simp [decRefList])
  | succ f ih =>
    cases l with
    | nil => rw [decRefList_nil] at hok; cases hok; exact ⟨[], rfl⟩
    | cons id rest =>
      rw [decRefList] at hok
      split at hok
      · split at hok
        · obtain ⟨pre, hpre⟩ := ih _ _ hok
          exact ⟨pre, by simpa using hpre⟩
        · obtain ⟨pre, hpre⟩ := ih _ _ hok
          exact ⟨pre ++ [id], by simpa using hpre⟩
      · exact absurd hok (by simp)

theorem decRefFoldLength (h : Heap) (l : List HeapId) (h' : Heap)
    (hok : decRefFold h l = .ok h') :
    h'.entries.length = h.entries.length := by
  induction l generalizing h with
  | nil => rw [decRefFold] at hok; cases hok; rfl
  | cons id rest ih =>
    have hfold : decRefFold h (id :: rest) =
        match h.dec_ref id with
        | .ok h1 => decRefFold h1 rest
        | e => e := rfl
    rw [hfold] at hok
    cases hdec : h.dec_ref id with
    | ok h1 =>
      simp only [hdec] at hok
      have h1len : h1.entries.length = h.entries.length :=
        decRefList_length _ _ _ _ hdec
      rw [ih h1 hok, h1len]
    | panicked => simp [hdec] at hok
    | fuelOut => simp [hdec] at hok

theorem decRefFoldFreeList (h : Heap) (l : List HeapId) (h' : Heap)
    (hok : decRefFold h l = .ok h') :
    ∃ pre, h'.free_list = pre ++ h.free_list := by
  induction l generalizing h with
  | nil => rw [decRefFold] at hok; cases hok; exact ⟨[], rfl⟩
  | cons id rest ih =>
    have hfold : decRefFold h (id :: rest) =
        match h.dec_ref id with
        | .ok h1 => decRefFold h1 rest
        | e => e := rfl
    rw [hfold] at hok
    cases hdec : h.dec_ref id with
    | ok h1 =>
      simp only [hdec] at hok
      obtain ⟨p1, hp1⟩ := decRefList_free_list _ _ _ _ hdec
      obtain ⟨p2, hp2⟩ := ih h1 hok
      exact ⟨p2 ++ p1, by rw [hp2, hp1, List.append_assoc]⟩
    | panicked => simp [hdec] at hok
    | fuelOut => simp [hdec] at hok

theorem allocate_pop (h : Heap) (data : HeapData) (fid : HeapId)
    (rest : List HeapId) (hfl : h.free_list = fid :: rest)
    (hrange : fid < h.entries.length) :
    h.allocate data =
      some (⟨h.entries.set fid (some ⟨1, some data, HashState.for_data data⟩), rest⟩, fid) := by
  simp [Heap.allocate, hfl, hrange]

theorem allocate_append (h : Heap) (data : HeapData) (hfl : h.free_list = []) :
    h.allocate data =
      some (⟨h.entries ++ [some ⟨1, some data, HashState.for_data data⟩], []⟩,
        h.entries.length) := by
  simp [Heap.allocate, hfl]

theorem allocate_fresh_entry (h h1 : Heap) (data : HeapData) (id : HeapId)
    (halloc : h.allocate data = some (h1, id)) :
    h1.entries[id]? = some (some ⟨1, some data, HashState.for_data data⟩) := by
  cases hfl : h.free_list with
  | cons fid rest =>
    by_cases hrange : fid < h.entries.length
    · rw [allocate_pop h data fid rest hfl hrange] at halloc
      simp only [Option.some.injEq, Prod.mk.injEq] at halloc
      obtain ⟨hh1, hid⟩ := halloc
      subst hid
      rw [← hh1]
      exact list_getElem?_set_eq _ _ _ (by simpa using hrange)
    · simp [Heap.allocate, hfl, hrange] at halloc
  | nil =>
    rw [allocate_append h data hfl] at halloc
    simp only [Option.some.injEq, Prod.mk.injEq] at halloc
    obtain ⟨hh1, hid⟩ := halloc
    subst hid
    rw [← hh1]
    simp

theorem allocDecPair_shape (data : HeapData) (h h2 : Heap)
    (hp : allocDecPair data h = some h2) :
    (h2.entries.length = h.entries.length ∨
      (h.free_list = [] ∧ h2.entries.length = h.entries.length + 1)) ∧
    h2.free_list ≠ [] := by
  cases halloc : h.allocate data with
  | none => simp [allocDecPair, halloc] at hp
  | some pair =>
    obtain ⟨h1, id⟩ := pair
    cases hdec : h1.dec_ref id with
    | panicked => simp [allocDecPair, halloc, hdec] at hp
    | fuelOut => simp [allocDecPair, halloc, hdec] at hp
    | ok hx =>
      have hh2 : hx = h2 := by simpa [allocDecPair, halloc, hdec] using hp
      subst hh2
      have hlive := allocate_fresh_entry h h1 data id halloc
      have hfree := (dec_ref_correct h1 id _ hlive).2 rfl
      rw [hfree] at hdec
      have hlen2 : hx.entries.length = h1.entries.length := by
        rcases hdat : pyDecRefIds data with _ | ⟨c, cs⟩
        · simp only [pyDecRefIdsOpt, hdat] at hdec
          rw [decRefFold] at hdec
          cases hdec
          simp
        · simp only [pyDecRefIdsOpt, hdat] at hdec
          have := decRefFoldLength _ _ _ hdec
          simpa using this
      have hsub : ∃ pre2, hx.free_list = pre2 ++ (id :: h1.free_list) := by
        rcases hdat : pyDecRefIds data with _ | ⟨c, cs⟩
        · simp only [pyDecRefIdsOpt, hdat] at hdec
          rw [decRefFold] at hdec
          cases hdec
          exact ⟨[], rfl⟩
        · simp only [pyDecRefIdsOpt, hdat] at hdec
          have := decRefFoldFreeList _ _ _ hdec
          simpa using this
      constructor
      · rw [hlen2]
        cases hfl : h.free_list with
        | cons fid rest =>
          by_cases hrange : fid < h.entries.length
          · rw [allocate_pop h data fid rest hfl hrange] at halloc
            simp only [Option.some.injEq, Prod.mk.injEq] at halloc
            obtain ⟨hh1, _⟩ := halloc
            left
            rw [← hh1]
            simp
          · simp [Heap.allocate, hfl, hrange] at halloc
        | nil =>
          rw [allocate_append h data hfl] at halloc
          simp only [Option.some.injEq, Prod.mk.injEq] at halloc
          obtain ⟨hh1, _⟩ := halloc
          right
          refine ⟨rfl, ?_⟩
          rw [← hh1]
          simp
      · obtain ⟨pre2, hpre2⟩ := hsub
        simp [hpre2]

theorem allocDecIter_len (data : HeapData) :
    ∀ n h h', allocDecIter data n h = some h' →
      h'.entries.length ≤ h.entries.length + 1 ∧
      (h.free_list ≠ [] → h'.entries.length ≤ h.entries.length) := by
  intro n
  induction n with
  | zero =>
    intro h h' hit
    have : h = h' := by simpa [allocDecIter] using hit
    subst this
    exact ⟨by omega, fun _ => le_refl _⟩
  | succ n ih =>
    intro h h' hit
    rw [allocDecIter] at hit
    cases hp : allocDecPair data h with
    | none => simp [hp] at hit
    | some h1 =>
      simp only [hp] at hit
      have shape := allocDecPair_shape data h h1 hp
      obtain ⟨b1, b2⟩ := ih h1 h' hit
      have hle : h'.entries.length ≤ h1.entries.length := b2 shape.2
      rcases shape.1 with hsame | ⟨hempty, hgrow⟩
      · exact ⟨by omega, fun _ => by omega⟩
      · exact ⟨by omega, fun hne => absurd hempty hne⟩

/-- **C2.** `allocate(data)` pops from the free list when non-empty (the slot
array does not grow) and otherwise appends at index `entries.len()`; the new
entry has refcount exactly 1 and `hash_state` per `HashState::for_data`
(`Unknown` for Str/Bytes/Tuple, `Unhashable` for List/Dict); after a
`dec_ref` that frees a childless payload the freed id sits on top of the free
list, so the next `allocate` reuses exactly that id; and under repeated
alloc/dec-ref pairs the slot-array length never exceeds its starting length
plus one (src/src/heap.rs lines 331-349 and 246-253). -/
theorem allocate_correct (h : Heap) (data : HeapData) :
    (∀ fid rest, h.free_list = fid :: rest → fid < h.entries.length →
      h.allocate data =
        some ((⟨h.entries.set fid (some ⟨1, some data, HashState.for_data data⟩),
          rest⟩ : Heap), fid) ∧
      (h.entries.set fid (some (⟨1, some data, HashState.for_data data⟩ : HeapValue))).length
        = h.entries.length) ∧
    (h.free_list = [] →
      h.allocate data =
        some ((⟨h.entries ++ [some ⟨1, some data, HashState.for_data data⟩], []⟩ : Heap),
          h.entries.length) ∧
      (h.entries ++ [some (⟨1, some data, HashState.for_data data⟩ : HeapValue)]).length
        = h.entries.length + 1) ∧
    (∀ h1 id, h.allocate data = some (h1, id) →
      h1.entries[id]? = some (some ⟨1, some data, HashState.for_data data⟩)) ∧
    ((∀ s, HashState.for_data (.str s) = .unknown) ∧
      (∀ b, HashState.for_data (.bytes b) = .unknown) ∧
      (∀ xs, HashState.for_data (.tuple xs) = .unknown) ∧
      (∀ xs, HashState.for_data (.list xs) = .unhashable) ∧
      (∀ kvs, HashState.for_data (.dict kvs) = .unhashable)) ∧
    (pyDecRefIds data = [] → ∀ h1 id, h.allocate data = some (h1, id) →
      ∃ h2, h1.dec_ref id = .ok h2 ∧ h2.free_list = id :: h1.free_list ∧
        ∀ data', h2.allocate data' =
          some ((⟨h2.entries.set id (some ⟨1, some data', HashState.for_data data'⟩),
            h1.free_list⟩ : Heap), id)) ∧
    (∀ n h', allocDecIter data n h = some h' →
      h'.entries.length ≤ h.entries.length + 1) := by
  refine ⟨?_, ?_, ?_, ⟨fun _ => rfl, fun _ => rfl, fun _ => rfl, fun _ => rfl, fun _ => rfl⟩,
    ?_, ?_⟩
  · intro fid rest hfl hrange
    exact ⟨allocate_pop h data fid rest hfl hrange, by simp⟩
  · intro hfl
    exact ⟨allocate_append h data hfl, by simp⟩
  · intro h1 id halloc
    exact allocate_fresh_entry h h1 data id halloc
  · intro hnochild h1 id halloc
    have hlive := allocate_fresh_entry h h1 data id halloc
    have hfree := (dec_ref_correct h1 id _ hlive).2 rfl
    have hzero : pyDecRefIdsOpt (some data) = ([] : List HeapId) := by
      simp [pyDecRefIdsOpt, hnochild]
    rw [hzero] at hfree
    refine ⟨⟨h1.entries.set id Option.none, id :: h1.free_list⟩, ?_, rfl, ?_⟩
    · rw [hfree]; rfl
    · intro data'
      apply allocate_pop
      · rfl
      · have hrange : id < h1.entries.length := list_lt_of_getElem? _ _ _ hlive
        simpa using hrange
  · intro n h' hit
    exact (allocDecIter_len data n h h' hit).1

/-- Witness for C2: on the empty heap an `allocate` of `Str "x"` appends at
index 0 with refcount 1 and `Unknown` hash state; three alloc/dec-ref pairs
leave a single (freed) slot, so the arena stays bounded. -/
theorem allocate_correct_witness :
    (Heap.allocate ⟨[], []⟩ (.str "x") =
      some (⟨[some ⟨1, some (.str "x"), .unknown⟩], []⟩, 0)) ∧
    (allocDecIter (.str "x") 3 ⟨[], []⟩ = some ⟨[Option.none], [0]⟩) ∧
    (1 : Nat) ≤ 0 + 1 := by
  refine ⟨?_, by decide, ?_⟩
  · have := ((allocate_correct ⟨[], []⟩ (.str "x")).2.1 rfl).1
    simp only [List.nil_append] at this
    exact this
  · have := (allocate_correct ⟨[], []⟩ (.str "x")).2.2.2.2.2 3 ⟨[Option.none], [0]⟩
      (by decide)
    simp only [List.length_nil, List.length_cons] at this
    exact this

/-- Values are hashed modulo `2 ^ 64` (the Rust `u64` hasher state). -/
def M64 : Nat := 2 ^ 64

/-- Modelled from the spec (§4.B): the standard-library `DefaultHasher` is
external to the repository; a hasher step is modelled as a fixed function of
the fed word, reduced modulo `2 ^ 64`.  Claim C3 (idempotence and caching) is
insensitive to the concrete mixing function. -/
def hashCombine (st x : Nat) : Nat := (st * 1099511628211 + x + 1) % M64

/-- Modelled from the spec (§4.B "strings/bytes hash their byte contents"):
the hash of a string's characters. -/
def strHash (s : String) : Nat :=
  s.data.foldl (fun st c => hashCombine st c.toNat) 14695981039346656037

/-- Modelled from the spec (§4.B): the hash of a byte sequence. -/
def bytesHash (b : List Nat) : Nat :=
  b.foldl hashCombine 14695981039346656037

/-- Modelled from the spec: the hash of an immediate `Value` appearing inside
a tuple (`Value::py_hash_u64` for non-`Ref` variants is not under `src/`). -/
def immHash : Value → Nat
  | .none => 0
  | .bool b => if b then 1 else 2
  | .int i => (i % (M64 : Int)).toNat
  | .float bits => bits % M64
  | .builtin id => (id + 3) % M64
  | .ref _ => 0

mutual

/-- `Heap::get_or_compute_hash` (src/src/heap.rs lines 435-466): `Unhashable`
and `Cached` states return immediately; an `Unknown` entry has its payload
taken out, hashed by `compute_hash_if_immutable`, restored, and the hash
state updated to `Cached`/`Unhashable`.  Fuel only bounds the recursion
through tuple elements; `Option.none` covers both a Rust panic and exhausted
fuel. -/
def getOrComputeHash : Nat → Heap → HeapId → Option (Option Nat × Heap)
  | 0, _, _ => Option.none
  | f + 1, h, id =>
    match h.entries[id]? with
    | some (some hv) =>
      match hv.hash_state with
      | .unhashable => some (Option.none, h)
      | .cached v => some (some v, h)
      | .unknown =>
        match hv.data with
        | some d =>
          match computeHashIfImmutable f d
              ⟨h.entries.set id (some ⟨hv.refcount, Option.none, hv.hash_state⟩),
                h.free_list⟩ with
          | some (hash, h2) =>
            match h2.entries[id]? with
            | some (some hv2) =>
              some (hash,
                ⟨h2.entries.set id (some ⟨hv2.refcount, some d,
                  match hash with
                  | some v => HashState.cached v
                  | Option.none => HashState.unhashable⟩), h2.free_list⟩)
            | _ => Option.none
          | Option.none => Option.none
        | Option.none => Option.none
    | _ => Option.none

/-- `HeapData::compute_hash_if_immutable` (src/src/heap.rs lines 40-66):
`Str`/`Bytes` hash their contents, a `Tuple` hashes its element hashes and is
unhashable as soon as one element is, `List`/`Dict` are unhashable. -/
def computeHashIfImmutable : Nat → HeapData → Heap → Option (Option Nat × Heap)
  | 0, _, _ => Option.none
  | f + 1, d, h =>
    match d with
    | .str s => some (some (strHash s), h)
    | .bytes b => some (some (bytesHash b), h)
    | .tuple xs => hashTupleElems f xs 14695981039346656037 h
    | .list _ => some (Option.none, h)
    | .dict _ => some (Option.none, h)

/-- The fold over a tuple's elements inside `compute_hash_if_immutable`:
an unhashable element makes the whole tuple unhashable. -/
def hashTupleElems : Nat → List Value → Nat → Heap → Option (Option Nat × Heap)
  | 0, _, _, _ => Option.none
  | _ + 1, [], st, h => some (some st, h)
  | f + 1, x :: rest, st, h =>
    match pyHashU64 f x h with
    | some (some hx, h1) => hashTupleElems f rest (hashCombine st hx) h1
    | some (Option.none, h1) => some (Option.none, h1)
    | Option.none => Option.none

/-- Modelled from the spec: `Value::py_hash_u64` is not under `src/`; a `Ref`
element defers to the heap's `get_or_compute_hash`, immediates hash to a
fixed value. -/
def pyHashU64 : Nat → Value → Heap → Option (Option Nat × Heap)
  | 0, _, _ => Option.none
  | f + 1, v, h =>
    match v with
    | .ref id => getOrComputeHash f h id
    | v => some (some (immHash v), h)

end

/-- The hash-state invariant of claim C3: every entry that is `Unhashable` in
`h` is still live and `Unhashable` in `h'`. -/
abbrev KeepsUnhashable (h h' : Heap) : Prop :=
  ∀ (j : Nat) (hv : HeapValue),
    h.entries[j]? = some (some hv) → hv.hash_state = .unhashable →
    ∃ hv' : HeapValue,
      h'.entries[j]? = some (some hv') ∧ hv'.hash_state = .unhashable

theorem keepsUnhashable_refl (h : Heap) : KeepsUnhashable h h :=
  fun _ hv hj hu => ⟨hv, hj, hu⟩

theorem keepsUnhashable_trans {h1 h2 h3 : Heap}
    (a : KeepsUnhashable h1 h2) (b : KeepsUnhashable h2 h3) :
    KeepsUnhashable h1 h3 := by
  intro j hv hj hu
  obtain ⟨hv2, hj2, hu2⟩ := a j hv hj hu
  exact b j hv2 hj2 hu2

/-- No step of the lazy hash computation ever moves an entry out of the
`Unhashable` state: the four mutually recursive workers all preserve
`KeepsUnhashable`. -/
theorem hash_keepsUnhashable (f : Nat) :
    (∀ h id r, getOrComputeHash f h id = some r → KeepsUnhashable h r.2) ∧
    (∀ d h r, computeHashIfImmutable f d h = some r → KeepsUnhashable h r.2) ∧
    (∀ xs st h r, hashTupleElems f xs st h = some r → KeepsUnhashable h r.2) ∧
    (∀ v h r, pyHashU64 f v h = some r → KeepsUnhashable h r.2) := by
  induction f with
  | zero =>
    refine ⟨?_, ?_, ?_, ?_⟩
    · intro h id r hok; exact absurd hok (by simp [getOrComputeHash])
    · intro d h r hok; exact absurd hok (by simp [computeHashIfImmutable])
    · intro xs st h r hok; exact absurd hok (by simp [hashTupleElems])
    · intro v h r hok; exact absurd hok (by simp [pyHashU64])
  | succ f ih =>
    obtain ⟨ihG, ihC, ihT, ihP⟩ := ih
    have hG : ∀ h id r, getOrComputeHash (f + 1) h id = some r → KeepsUnhashable h r.2 := by
      intro h id r hok
      cases hget : h.entries[id]? with
      | none => simp [getOrComputeHash, hget] at hok
      | some slot =>
        cases slot with
        | none => simp [getOrComputeHash, hget] at hok
        | some hv =>
          cases hhs : hv.hash_state with
          | unhashable =>
            have : r = (Option.none, h) := by
              simpa [getOrComputeHash, hget, hhs] using hok.symm
            rw [this]
            exact keepsUnhashable_refl h
          | cached v =>
            have : r = (some v, h) := by
              simpa [getOrComputeHash, hget, hhs] using hok.symm
            rw [this]
            exact keepsUnhashable_refl h
          | unknown =>
            cases hdata : hv.data with
            | none => simp [getOrComputeHash, hget, hhs, hdata] at hok
            | some d =>
              cases hcomp : computeHashIfImmutable f d
                  ⟨h.entries.set id (some ⟨hv.refcount, Option.none, HashState.unknown⟩),
                    h.free_list⟩ with
              | none => simp [getOrComputeHash, hget, hhs, hdata, hcomp] at hok
              | some pair =>
                obtain ⟨hash, h2⟩ := pair
                cases hlook : h2.entries[id]? with
                | none =>
                  simp [getOrComputeHash, hget, hhs, hdata, hcomp, hlook] at hok
                | some slot2 =>
                  cases slot2 with
                  | none =>
                    simp [getOrComputeHash, hget, hhs, hdata, hcomp, hlook] at hok
                  | some hv2 =>
                    have hkeep : ∀ ns : HashState, KeepsUnhashable h
                        ⟨h2.entries.set id (some ⟨hv2.refcount, some d, ns⟩),
                          h2.free_list⟩ := by
                      intro ns j hvj hj hu
                      by_cases hji : j = id
                      · subst hji
                        rw [hj] at hget
                        cases hget
                        rw [hhs] at hu
                        exact absurd hu (by simp)
                      · have hj1 :
                            (⟨h.entries.set id
                              (some ⟨hv.refcount, Option.none, HashState.unknown⟩),
                              h.free_list⟩ : Heap).entries[j]? = some (some hvj) := by
                          show (h.entries.set id _)[j]? = _
                          rw [list_getElem?_set_ne _ _ _ _ (fun hh => hji hh.symm)]
                          exact hj
                        obtain ⟨hv', hj2, hu2⟩ := ihC d _ _ hcomp j hvj hj1 hu
                        refine ⟨hv', ?_, hu2⟩
                        show (h2.entries.set id _)[j]? = _
                        rw [list_getElem?_set_ne _ _ _ _ (fun hh => hji hh.symm)]
                        exact hj2
                    cases hash with
                    | some v =>
                      have hr : r = (some v,
                          ⟨h2.entries.set id
                            (some ⟨hv2.refcount, some d, HashState.cached v⟩),
                            h2.free_list⟩) := by
                        simpa [getOrComputeHash, hget, hhs, hdata, hcomp, hlook]
                          using hok.symm
                      rw [hr]
                      exact hkeep _
                    | none =>
                      have hr : r = (Option.none,
                          ⟨h2.entries.set id
                            (some ⟨hv2.refcount, some d, HashState.unhashable⟩),
                            h2.free_list⟩) := by
                        simpa [getOrComputeHash, hget, hhs, hdata, hcomp, hlook]
                          using hok.symm
                      rw [hr]
                      exact hkeep _
    have hC : ∀ d h r, computeHashIfImmutable (f + 1) d h = some r →
        KeepsUnhashable h r.2 := by
      intro d h r hok
      cases d with
      | str s =>
        have : r = (some (strHash s), h) := by
          simpa [computeHashIfImmutable] using hok.symm
        rw [this]; exact keepsUnhashable_refl h
      | bytes b =>
        have : r = (some (bytesHash b), h) := by
          simpa [computeHashIfImmutable] using hok.symm
        rw [this]; exact keepsUnhashable_refl h
      | tuple xs =>
        have hok' : hashTupleElems f xs 14695981039346656037 h = some r := by
          simpa [computeHashIfImmutable] using hok
        exact ihT xs _ h r hok'
      | list xs =>
        have : r = (Option.none, h) := by
          simpa [computeHashIfImmutable] using hok.symm
        rw [this]; exact keepsUnhashable_refl h
      | dict kvs =>
        have : r = (Option.none, h) := by
          simpa [computeHashIfImmutable] using hok.symm
        rw [this]; exact keepsUnhashable_refl h
    have hT : ∀ xs st h r, hashTupleElems (f + 1) xs st h = some r →
        KeepsUnhashable h r.2 := by
      intro xs st h r hok
      cases xs with
      | nil =>
        have : r = (some st, h) := by
          simpa [hashTupleElems] using hok.symm
        rw [this]; exact keepsUnhashable_refl h
      | cons x rest =>
        cases hph : pyHashU64 f x h with
        | none => simp [hashTupleElems, hph] at hok
        | some pair =>
          obtain ⟨hx, h1⟩ := pair
          cases hx with
          | some hxv =>
            have hok' : hashTupleElems f rest (hashCombine st hxv) h1 = some r := by
              simpa [hashTupleElems, hph] using hok
            exact keepsUnhashable_trans (ihP x h _ hph) (ihT rest _ h1 r hok')
          | none =>
            have : r = (Option.none, h1) := by
              simpa [hashTupleElems, hph] using hok.symm
            rw [this]
            exact ihP x h _ hph
    have hP : ∀ v h r, pyHashU64 (f + 1) v h = some r → KeepsUnhashable h r.2 := by
      intro v h r hok
      cases v with
      | ref id =>
        have hok' : getOrComputeHash f h id = some r := by
          simpa [pyHashU64] using hok
        exact ihG h id r hok'
      | none =>
        have : r = (some (immHash .none), h) := by simpa [pyHashU64] using hok.symm
        rw [this]; exact keepsUnhashable_refl h
      | bool b =>
        have : r = (some (immHash (.bool b)), h) := by simpa [pyHashU64] using hok.symm
        rw [this]; exact keepsUnhashable_refl h
      | int i =>
        have : r = (some (immHash (.int i)), h) := by simpa [pyHashU64] using hok.symm
        rw [this]; exact keepsUnhashable_refl h
      | float bits =>
        have : r = (some (immHash (.float bits)), h) := by simpa [pyHashU64] using hok.symm
        rw [this]; exact keepsUnhashable_refl h
      | builtin id =>
        have : r = (some (immHash (.builtin id)), h) := by simpa [pyHashU64] using hok.symm
        rw [this]; exact keepsUnhashable_refl h
    exact ⟨hG, hC, hT, hP⟩

theorem goch_cached_eq (f : Nat) (h : Heap) (id : HeapId) (hv : HeapValue)
    (v : Nat) (hget : h.entries[id]? = some (some hv))
    (hst : hv.hash_state = .cached v) :
    getOrComputeHash (f + 1) h id = some (some v, h) := by
  simp [getOrComputeHash, hget, hst]

theorem goch_unhashable_eq (f : Nat) (h : Heap) (id : HeapId) (hv : HeapValue)
    (hget : h.entries[id]? = some (some hv))
    (hst : hv.hash_state = .unhashable) :
    getOrComputeHash (f + 1) h id = some (Option.none, h) := by
  simp [getOrComputeHash, hget, hst]

/-- After any successful `get_or_compute_hash`, the entry is live and its
hash state records the returned value: `Cached v` when the call returned
`Some v`, `Unhashable` when it returned `None`. -/
theorem goch_post (f : Nat) (h : Heap) (id : HeapId) (r : Option Nat) (h' : Heap)
    (hok : getOrComputeHash f h id = some (r, h')) :
    ∃ hv' : HeapValue, h'.entries[id]? = some (some hv') ∧
      hv'.hash_state =
        (match r with
          | some v => HashState.cached v
          | Option.none => HashState.unhashable) := by
  cases f with
  | zero => simp [getOrComputeHash] at hok
  | succ f =>
    cases hget : h.entries[id]? with
    | none => simp [getOrComputeHash, hget] at hok
    | some slot =>
      cases slot with
      | none => simp [getOrComputeHash, hget] at hok
      | some hv =>
        cases hhs : hv.hash_state with
        | unhashable =>
          have hrr : r = Option.none ∧ h' = h := by
            have := hok
            simp [getOrComputeHash, hget, hhs] at this
            exact ⟨this.1.symm, this.2.symm⟩
          obtain ⟨hr1, hr2⟩ := hrr
          subst hr1; subst hr2
          exact ⟨hv, hget, by rw [hhs]⟩
        | cached v =>
          have hrr : r = some v ∧ h' = h := by
            have := hok
            simp [getOrComputeHash, hget, hhs] at this
            exact ⟨this.1.symm, this.2.symm⟩
          obtain ⟨hr1, hr2⟩ := hrr
          subst hr1; subst hr2
          exact ⟨hv, hget, by rw [hhs]⟩
        | unknown =>
          cases hdata : hv.data with
          | none => simp [getOrComputeHash, hget, hhs, hdata] at hok
          | some d =>
            cases hcomp : computeHashIfImmutable f d
                ⟨h.entries.set id (some ⟨hv.refcount, Option.none, HashState.unknown⟩),
                  h.free_list⟩ with
            | none => simp [getOrComputeHash, hget, hhs, hdata, hcomp] at hok
            | some pair =>
              obtain ⟨hash, h2⟩ := pair
              cases hlook : h2.entries[id]? with
              | none => simp [getOrComputeHash, hget, hhs, hdata, hcomp, hlook] at hok
              | some slot2 =>
                cases slot2 with
                | none =>
                  simp [getOrComputeHash, hget, hhs, hdata, hcomp, hlook] at hok
                | some hv2 =>
                  have hrange : id < h2.entries.length :=
                    list_lt_of_getElem? _ _ _ hlook
                  cases hash with
                  | some v =>
                    have hrr : r = some v ∧
                        h' = ⟨h2.entries.set id
                          (some ⟨hv2.refcount, some d, HashState.cached v⟩),
                          h2.free_list⟩ := by
                      have := hok
                      simp [getOrComputeHash, hget, hhs, hdata, hcomp, hlook] at this
                      exact ⟨this.1.symm, this.2.symm⟩
                    obtain ⟨hr1, hr2⟩ := hrr
                    subst hr1; subst hr2
                    exact ⟨⟨hv2.refcount, some d, HashState.cached v⟩,
                      list_getElem?_set_eq _ _ _ hrange, rfl⟩
                  | none =>
                    have hrr : r = Option.none ∧
                        h' = ⟨h2.entries.set id
                          (some ⟨hv2.refcount, some d, HashState.unhashable⟩),
                          h2.free_list⟩ := by
                      have := hok
                      simp [getOrComputeHash, hget, hhs, hdata, hcomp, hlook] at this
                      exact ⟨this.1.symm, this.2.symm⟩
                    obtain ⟨hr1, hr2⟩ := hrr
                    subst hr1; subst hr2
                    exact ⟨⟨hv2.refcount, some d, HashState.unhashable⟩,
                      list_getElem?_set_eq _ _ _ hrange, rfl⟩

/-- **C3.** `get_or_compute_hash` is idempotent: a `Cached(h)` entry answers
`Some h` with the heap untouched, an `Unhashable` entry (the initial state of
`List` and `Dict` per `HashState::for_data`) answers `None` with the heap
untouched, any successful call is reproduced exactly by every later call, and
no call ever moves any entry (the queried one or any other) out of the
`Unhashable` state (src/src/heap.rs lines 435-466 and 236-253). -/
theorem get_or_compute_hash_correct :
    (∀ f h id hv v, h.entries[id]? = some (some hv) → hv.hash_state = .cached v →
      getOrComputeHash (f + 1) h id = some (some v, h)) ∧
    (∀ f h id hv, h.entries[id]? = some (some hv) → hv.hash_state = .unhashable →
      getOrComputeHash (f + 1) h id = some (Option.none, h)) ∧
    (∀ f h id r h', getOrComputeHash f h id = some (r, h') →
      ∀ f', getOrComputeHash (f' + 1) h' id = some (r, h')) ∧
    (∀ f h id r h', getOrComputeHash f h id = some (r, h') →
      KeepsUnhashable h h') ∧
    (∀ xs, HashState.for_data (.list xs) = .unhashable) ∧
    (∀ kvs, HashState.for_data (.dict kvs) = .unhashable) := by
  refine ⟨goch_cached_eq, goch_unhashable_eq, ?_, ?_, fun _ => rfl, fun _ => rfl⟩
  · intro f h id r h' hok f'
    obtain ⟨hv', hlook, hst⟩ := goch_post f h id r h' hok
    cases r with
    | some v => exact goch_cached_eq f' h' id hv' v hlook hst
    | none => exact goch_unhashable_eq f' h' id hv' hlook hst
  · intro f h id r h' hok
    exact (hash_keepsUnhashable f).1 h id (r, h') hok

/-- Witness for C3: a cached string entry answers its cache untouched; a
fresh list entry is `Unhashable` and answers `None`; computing the hash of an
`Unknown` string entry once makes every later call return the same cached
answer. -/
theorem get_or_compute_hash_correct_witness :
    (getOrComputeHash 1 ⟨[some ⟨1, some (.str "a"), .cached 42⟩], []⟩ 0 =
      some (some 42, ⟨[some ⟨1, some (.str "a"), .cached 42⟩], []⟩)) ∧
    (getOrComputeHash 1 ⟨[some ⟨1, some (.list []), .unhashable⟩], []⟩ 0 =
      some (Option.none, ⟨[some ⟨1, some (.list []), .unhashable⟩], []⟩)) ∧
    (getOrComputeHash 5 ⟨[some ⟨1, some (.str "a"), .cached (strHash "a")⟩], []⟩ 0 =
      some (some (strHash "a"),
        ⟨[some ⟨1, some (.str "a"), .cached (strHash "a")⟩], []⟩)) := by
  refine ⟨?_, ?_, ?_⟩
  · exact get_or_compute_hash_correct.1 0 _ 0 _ 42 rfl rfl
  · exact get_or_compute_hash_correct.2.1 0 _ 0 _ rfl rfl
  · exact get_or_compute_hash_correct.2.2.1 2
      ⟨[some ⟨1, some (.str "a"), .unknown⟩], []⟩ 0 (some (strHash "a"))
      ⟨[some ⟨1, some (.str "a"), .cached (strHash "a")⟩], []⟩ rfl 4

theorem list_set_set {α : Type} (l : List α) (i : Nat) (x y : α) :
    (l.set i x).set i y = l.set i y := by
  induction l generalizing i with
  | nil => simp
  | cons a as ih =>
    cases i with
    | zero => simp
    | succ j => simp [ih]

/-- `Heap::with_entry_mut` (src/src/heap.rs lines 495-507): take the payload
out of the slot (Rust panics — here `Option.none` — if the slot is missing,
freed or already borrowed), call `f` with the still-usable heap and the
payload, then restore the payload `f` returns.  The callback's effects are
its returned result, heap and payload. -/
def Heap.with_entry_mut {R : Type} (h : Heap) (id : HeapId)
    (f : Heap → HeapData → R × Heap × HeapData) : Option (R × Heap) :=
  match h.entries[id]? with
  | some (some hv) =>
    match hv.data with
    | some d =>
      let out := f ⟨h.entries.set id
        (some ⟨hv.refcount, Option.none, hv.hash_state⟩), h.free_list⟩ d
      match out.2.1.entries[id]? with
      | some (some hv2) =>
        some (out.1, ⟨out.2.1.entries.set id
          (some ⟨hv2.refcount, some out.2.2, hv2.hash_state⟩), out.2.1.free_list⟩)
      | _ => Option.none
    | Option.none => Option.none
  | _ => Option.none

/-- `Heap::with_two` (src/src/heap.rs lines 513-537): when `left == right`
the payload is taken once and passed to `f` twice; otherwise both payloads
are taken (left first), and after the callback both are restored, right
first, then left.  The callback sees the payloads immutably and the heap
mutably. -/
def Heap.with_two {R : Type} (h : Heap) (left right : HeapId)
    (f : Heap → HeapData → HeapData → R × Heap) : Option (R × Heap) :=
  if left = right then
    match h.entries[left]? with
    | some (some hv) =>
      match hv.data with
      | some d =>
        let out := f ⟨h.entries.set left
          (some ⟨hv.refcount, Option.none, hv.hash_state⟩), h.free_list⟩ d d
        match out.2.entries[left]? with
        | some (some hv2) =>
          some (out.1, ⟨out.2.entries.set left
            (some ⟨hv2.refcount, some d, hv2.hash_state⟩), out.2.free_list⟩)
        | _ => Option.none
      | Option.none => Option.none
    | _ => Option.none
  else
    match h.entries[left]? with
    | some (some hvl) =>
      match hvl.data with
      | some dl =>
        match (h.entries.set left
            (some ⟨hvl.refcount, Option.none, hvl.hash_state⟩))[right]? with
        | some (some hvr) =>
          match hvr.data with
          | some dr =>
            let out := f ⟨(h.entries.set left
              (some ⟨hvl.refcount, Option.none, hvl.hash_state⟩)).set right
              (some ⟨hvr.refcount, Option.none, hvr.hash_state⟩), h.free_list⟩ dl dr
            match out.2.entries[right]? with
            | some (some hvr2) =>
              match (out.2.entries.set right
                  (some ⟨hvr2.refcount, some dr, hvr2.hash_state⟩))[left]? with
              | some (some hvl2) =>
                some (out.1, ⟨(out.2.entries.set right
                  (some ⟨hvr2.refcount, some dr, hvr2.hash_state⟩)).set left
                  (some ⟨hvl2.refcount, some dl, hvl2.hash_state⟩), out.2.free_list⟩)
              | _ => Option.none
            | _ => Option.none
          | Option.none => Option.none
        | _ => Option.none
      | Option.none => Option.none
    | _ => Option.none

/-- The heap as the callback sees it while `id`'s payload is taken: the entry
keeps its refcount and hash state, the payload slot is `none`. -/
def takenHeap (h : Heap) (id : HeapId) (hv : HeapValue) : Heap :=
  ⟨h.entries.set id (some ⟨hv.refcount, Option.none, hv.hash_state⟩), h.free_list⟩

/-- **C4.** `with_two(a, b, f)` detects `a == b` and takes the payload once,
passing it to `f` twice; the taken payloads are restored into their slots
after the callback returns with the entry's refcount field untouched by the
helper itself; and for a callback that leaves the heap alone the whole
take-and-restore round trip returns the heap exactly as it was — so each
entry stays present with refcount unchanged across the call, for `with_two`
on equal ids, on distinct ids, and for `with_entry_mut` (which restores the
payload the callback returns) (src/src/heap.rs lines 495-537). -/
theorem with_two_correct {R : Type} (h : Heap) :
    (∀ (a : HeapId) (hv : HeapValue) (d : HeapData)
        (f : Heap → HeapData → HeapData → R × Heap) (r : R) (h2 : Heap)
        (hv2 : HeapValue),
      h.entries[a]? = some (some hv) → hv.data = some d →
      f (takenHeap h a hv) d d = (r, h2) →
      h2.entries[a]? = some (some hv2) →
      h.with_two a a f =
        some (r, ⟨h2.entries.set a (some ⟨hv2.refcount, some d, hv2.hash_state⟩),
          h2.free_list⟩)) ∧
    (∀ (a : HeapId) (hv : HeapValue) (d : HeapData) (g : HeapData → HeapData → R),
      h.entries[a]? = some (some hv) → hv.data = some d →
      h.with_two a a (fun hh d1 d2 => (g d1 d2, hh)) = some (g d d, h)) ∧
    (∀ (a b : HeapId) (hvl hvr : HeapValue) (dl dr : HeapData)
        (g : HeapData → HeapData → R),
      a ≠ b →
      h.entries[a]? = some (some hvl) → hvl.data = some dl →
      h.entries[b]? = some (some hvr) → hvr.data = some dr →
      h.with_two a b (fun hh d1 d2 => (g d1 d2, hh)) = some (g dl dr, h)) ∧
    (∀ (a : HeapId) (hv : HeapValue) (d : HeapData) (g : HeapData → R)
        (m : HeapData → HeapData),
      h.entries[a]? = some (some hv) → hv.data = some d →
      h.with_entry_mut a (fun hh dd => (g dd, hh, m dd)) =
        some (g d, ⟨h.entries.set a (some ⟨hv.refcount, some (m d), hv.hash_state⟩),
          h.free_list⟩)) := by
  have hsame : ∀ (a : HeapId) (hv : HeapValue) (d : HeapData)
      (f : Heap → HeapData → HeapData → R × Heap) (r : R) (h2 : Heap)
      (hv2 : HeapValue),
      h.entries[a]? = some (some hv) → hv.data = some d →
      f (takenHeap h a hv) d d = (r, h2) →
      h2.entries[a]? = some (some hv2) →
      h.with_two a a f =
        some (r, ⟨h2.entries.set a (some ⟨hv2.refcount, some d, hv2.hash_state⟩),
          h2.free_list⟩) := by
    intro a hv d f r h2 hv2 hget hdata hf hl2
    rw [takenHeap] at hf
    simp [Heap.with_two, hget, hdata, hf, hl2]
  refine ⟨hsame, ?_, ?_, ?_⟩
  · intro a hv d g hget hdata
    have hrange : a < h.entries.length := list_lt_of_getElem? _ _ _ hget
    have hl2 : (takenHeap h a hv).entries[a]? =
        some (some ⟨hv.refcount, Option.none, hv.hash_state⟩) :=
      list_getElem?_set_eq _ _ _ (by simpa using hrange)
    have key := hsame a hv d (fun hh d1 d2 => (g d1 d2, hh)) (g d d)
      (takenHeap h a hv) ⟨hv.refcount, Option.none, hv.hash_state⟩ hget hdata rfl hl2
    rw [key]
    have heta : (⟨hv.refcount, some d, hv.hash_state⟩ : HeapValue) = hv := by
      cases hv
      simp_all
    have hent : (takenHeap h a hv).entries.set a
        (some (⟨hv.refcount, some d, hv.hash_state⟩ : HeapValue)) = h.entries := by
      rw [takenHeap]
      show (h.entries.set a _).set a _ = h.entries
      rw [list_set_set, heta, list_set_of_getElem? _ _ _ hget]
    rw [hent]
    rfl
  · intro a b hvl hvr dl dr g hab hgeta hdatal hgetb hdatar
    have hrangea : a < h.entries.length := list_lt_of_getElem? _ _ _ hgeta
    have hrangeb : b < h.entries.length := list_lt_of_getElem? _ _ _ hgetb
    have hb1 : (h.entries.set a
        (some (⟨hvl.refcount, Option.none, hvl.hash_state⟩ : HeapValue)))[b]? =
        some (some hvr) := by
      rw [list_getElem?_set_ne _ _ _ _ hab]
      exact hgetb
    have hb2 : ((h.entries.set a
        (some (⟨hvl.refcount, Option.none, hvl.hash_state⟩ : HeapValue))).set b
        (some (⟨hvr.refcount, Option.none, hvr.hash_state⟩ : HeapValue)))[b]? =
        some (some (⟨hvr.refcount, Option.none, hvr.hash_state⟩ : HeapValue)) :=
      list_getElem?_set_eq _ _ _ (by simpa using hrangeb)
    have hetar : (⟨hvr.refcount, some dr, hvr.hash_state⟩ : HeapValue) = hvr := by
      cases hvr
      simp_all
    have hmid : (h.entries.set a
        (some (⟨hvl.refcount, Option.none, hvl.hash_state⟩ : HeapValue))).set b
        (some (⟨hvr.refcount, some dr, hvr.hash_state⟩ : HeapValue)) =
        h.entries.set a
          (some (⟨hvl.refcount, Option.none, hvl.hash_state⟩ : HeapValue)) := by
      rw [hetar]
      exact list_set_of_getElem? _ _ _ hb1
    have ha3 : ((h.entries.set a
        (some (⟨hvl.refcount, Option.none, hvl.hash_state⟩ : HeapValue))).set b
        (some (⟨hvr.refcount, some dr, hvr.hash_state⟩ : HeapValue)))[a]? =
        some (some (⟨hvl.refcount, Option.none, hvl.hash_state⟩ : HeapValue)) := by
      rw [hmid]
      exact list_getElem?_set_eq _ _ _ (by simpa using hrangea)
    have hetal : (⟨hvl.refcount, some dl, hvl.hash_state⟩ : HeapValue) = hvl := by
      cases hvl
      simp_all
    have hfin : ((h.entries.set a
        (some (⟨hvl.refcount, Option.none, hvl.hash_state⟩ : HeapValue))).set b
        (some (⟨hvr.refcount, some dr, hvr.hash_state⟩ : HeapValue))).set a
        (some (⟨hvl.refcount, some dl, hvl.hash_state⟩ : HeapValue)) = h.entries := by
      rw [hmid, list_set_set, hetal, list_set_of_getElem? _ _ _ hgeta]
    simp [Heap.with_two, hab, hgeta, hdatal, hb1, hdatar, hb2, ha3, hfin]
  · intro a hv d g m hget hdata
    have hrange : a < h.entries.length := list_lt_of_getElem? _ _ _ hget
    have hl2 : (h.entries.set a
        (some (⟨hv.refcount, Option.none, hv.hash_state⟩ : HeapValue)))[a]? =
        some (some (⟨hv.refcount, Option.none, hv.hash_state⟩ : HeapValue)) :=
      list_getElem?_set_eq _ _ _ (by simpa using hrange)
    have hfin : (h.entries.set a
        (some (⟨hv.refcount, Option.none, hv.hash_state⟩ : HeapValue))).set a
        (some (⟨hv.refcount, some (m d), hv.hash_state⟩ : HeapValue)) =
        h.entries.set a (some (⟨hv.refcount, some (m d), hv.hash_state⟩ : HeapValue)) :=
      list_set_set _ _ _ _
    simp [Heap.with_entry_mut, hget, hdata, hl2, hfin]

/-- Witness for C4: on a one-slot heap holding the string `"ab"`, `with_two`
with equal ids hands the same payload to both callback arguments and returns
the heap unchanged; `with_entry_mut` replacing the payload restores the
callback's payload with the refcount untouched. -/
theorem with_two_correct_witness :
    (Heap.with_two ⟨[some ⟨2, some (.str "ab"), .unknown⟩], []⟩ 0 0
      (fun hh d1 d2 => ((d1, d2), hh)) =
      some (((HeapData.str "ab", HeapData.str "ab")),
        ⟨[some ⟨2, some (.str "ab"), .unknown⟩], []⟩)) ∧
    (Heap.with_entry_mut ⟨[some ⟨2, some (.str "ab"), .unknown⟩], []⟩ 0
      (fun hh dd => (dd, hh, HeapData.str "xy")) =
      some (HeapData.str "ab",
        ⟨[some ⟨2, some (.str "xy"), .unknown⟩], []⟩)) := by
  constructor
  · exact (with_two_correct ⟨[some ⟨2, some (.str "ab"), .unknown⟩], []⟩).2.1
      0 ⟨2, some (.str "ab"), .unknown⟩ (.str "ab") (fun d1 d2 => (d1, d2)) rfl rfl
  · have := (with_two_correct (R := HeapData)
      ⟨[some ⟨2, some (.str "ab"), .unknown⟩], []⟩).2.2.2
      0 ⟨2, some (.str "ab"), .unknown⟩ (.str "ab") (fun dd => dd)
      (fun _ => HeapData.str "xy") rfl rfl
    simpa using this

/-- `ExcType` (src/src/exceptions.rs lines 12-17): the closed set of user
exception kinds.  The enum has exactly these four variants. -/
inductive ExcType where
  | valueError
  | typeError
  | nameError
  | attributeError
deriving DecidableEq

/-- `ExcType::str` (src/src/exceptions.rs lines 28-35), also the `Display`
rendering of an `ExcType`. -/
def ExcType.str : ExcType → String
  | .valueError => "ValueError"
  | .typeError => "TypeError"
  | .nameError => "NameError"
  | .attributeError => "AttributeError"

/-- Modelled from the spec: `Object` (`crate::object`) is not under `src/`;
exception arguments are objects, typically a single string.  Its `Display`
prints a string argument bare and a `Ref` as `<Ref(id)>` per the comment in
`impl fmt::Display for Exception`. -/
inductive Object where
  | str (s : String)
  | int (i : Int)
  | ref (id : Nat)
deriving DecidableEq

/-- Modelled from the spec: the `Display` rendering of a single `Object`
argument as it appears inside an exception message. -/
def Object.display : Object → String
  | .str s => s
  | .int i => toString i
  | .ref id => "<Ref(" ++ toString id ++ ")>"

/-- `Exception` (src/src/exceptions.rs lines 38-42): a kind plus an argument
vector. -/
structure Exception where
  exc_type : ExcType
  args : List Object
deriving DecidableEq

/-- `impl fmt::Display for Exception` (src/src/exceptions.rs lines 44-67):
no args prints nothing, one arg prints it bare, two or more print a
parenthesised comma-separated tuple. -/
def Exception.display (e : Exception) : String :=
  match e.args with
  | [] => ""
  | [a] => a.display
  | a :: b :: rest =>
    "(" ++ a.display ++ ", " ++ b.display ++
      String.join (rest.map (fun x => ", " ++ x.display)) ++ ")"

/-- `Exception::str_with_type` (src/src/exceptions.rs lines 81-83):
`format!("{}: {self}", self.exc_type)`. -/
def Exception.str_with_type (e : Exception) : String :=
  e.exc_type.str ++ ": " ++ e.display

/-- The message of `Exception::operand_type_error`
(src/src/exceptions.rs line 132):
`unsupported operand type(s) for {op}: '{left_type}' and '{right_type}'`. -/
def operandTypeErrorMsg (op left_type right_type : String) : String :=
  "unsupported operand type(s) for " ++ op ++ ": '" ++ left_type ++ "' and '"
    ++ right_type ++ "'"

/-- `Exception::operand_type_error` (src/src/exceptions.rs lines 120-137)
builds a `TypeError` carrying that message (the position bookkeeping is
dropped: the claims are about the kind and message). -/
def Exception.operand_type_error (op left_type right_type : String) : Exception :=
  ⟨.typeError, [.str (operandTypeErrorMsg op left_type right_type)]⟩

/-- `StackFrame` (src/src/exceptions.rs lines 193-198): a source position, an
optional frame name, an optional parent frame.  `CodeRange` (`crate::parse`)
is not under `src/`; a position is kept as its rendered text. -/
inductive StackFrame where
  | mk (position : String) (frame_name : Option String) (parent : Option StackFrame)

/-- Modelled from the spec: `CodeRange::traceback` (`crate::parse`) is not
under `src/`; one traceback line renders the position and the optional frame
name and ends with a newline, so that the frame block precedes whatever is
printed next. -/
def tracebackLine (position : String) (frame_name : Option String) : String :=
  "  File " ++ position ++
    (match frame_name with
      | some n => ", in " ++ n
      | Option.none => "") ++ "\n"

/-- `impl fmt::Display for StackFrame` (src/src/exceptions.rs lines 200-208):
the parent chain is printed first, then this frame's traceback line, so the
outermost frame comes first. -/
def StackFrame.display : StackFrame → String
  | .mk position frame_name parentOpt =>
    (match parentOpt with
      | some p => p.display
      | Option.none => "") ++ tracebackLine position frame_name

/-- `ExceptionRaise` (src/src/exceptions.rs lines 159-164): an exception plus
an optional stack frame chain. -/
structure ExceptionRaise where
  exc : Exception
  frame : Option StackFrame

/-- `impl fmt::Display for ExceptionRaise` (src/src/exceptions.rs lines
166-174): with a frame, the traceback header line, then the frames, then
`<Kind>: <message>`; without a frame just the kind-and-message line. -/
def ExceptionRaise.display (e : ExceptionRaise) : String :=
  match e.frame with
  | some fr => "Traceback (most recent call last):\n" ++ fr.display
      ++ e.exc.str_with_type
  | Option.none => e.exc.str_with_type

/-- Counterexample for C5: the user-exception taxonomy of
src/src/exceptions.rs has no `IndexError` and no `KeyError` kind, and it has
exactly four members, not six. -/
theorem exc_type_counterexample :
    (¬ ∃ e : ExcType, ExcType.str e = "IndexError") ∧
    (¬ ∃ e : ExcType, ExcType.str e = "KeyError") ∧
    ([ExcType.valueError, ExcType.typeError, ExcType.nameError,
      ExcType.attributeError].length = 4) := by
  refine ⟨?_, ?_, rfl⟩
  · rintro ⟨e, he⟩
    cases e <;> simp [ExcType.str] at he
  · rintro ⟨e, he⟩
    cases e <;> simp [ExcType.str] at he

/-- **C5 (amended).** The user-exception taxonomy is closed and contains
exactly the four kinds `ValueError`, `TypeError`, `NameError` and
`AttributeError`: every exception kind is one of these four, and each of the
four is constructible and renders its own name
(src/src/exceptions.rs lines 12-17 and 28-35). -/
theorem exc_type_closed_four :
    (∀ e : ExcType, e = .valueError ∨ e = .typeError ∨ e = .nameError ∨
      e = .attributeError) ∧
    ExcType.str .valueError = "ValueError" ∧
    ExcType.str .typeError = "TypeError" ∧
    ExcType.str .nameError = "NameError" ∧
    ExcType.str .attributeError = "AttributeError" := by
  refine ⟨?_, rfl, rfl, rfl, rfl⟩
  intro e
  cases e
  · exact Or.inl rfl
  · exact Or.inr (Or.inl rfl)
  · exact Or.inr (Or.inr (Or.inl rfl))
  · exact Or.inr (Or.inr (Or.inr rfl))

/-- **C9.** The `Display` of a raised exception that carries a frame is the
traceback header line, then the stack frames (a frame prints its parent —
the outermost — first), then the final `<Kind>: <message>` line; so header
and frames always precede the kind-and-message text
(src/src/exceptions.rs lines 166-174 and 200-208). -/
theorem exception_display_traceback :
    (∀ (exc : Exception) (fr : StackFrame),
      ExceptionRaise.display ⟨exc, some fr⟩ =
        "Traceback (most recent call last):\n" ++ fr.display
          ++ exc.str_with_type) ∧
    (∀ (pos : String) (nm : Option String) (p : StackFrame),
      StackFrame.display (.mk pos nm (some p)) =
        p.display ++ tracebackLine pos nm) ∧
    (∀ (pos : String) (nm : Option String),
      StackFrame.display (.mk pos nm Option.none) = tracebackLine pos nm) ∧
    (∀ exc : Exception,
      ExceptionRaise.display ⟨exc, Option.none⟩ = exc.str_with_type) := by
  refine ⟨fun exc fr => rfl, fun pos nm p => rfl, fun pos nm => ?_, fun exc => rfl⟩
  show "" ++ tracebackLine pos nm = tracebackLine pos nm
  simp

/-- **C10.** An exception with no arguments prints nothing for its message,
so `str_with_type` is exactly `<Kind>: ` with nothing after the colon; a
single argument prints bare; the parenthesised tuple form appears only from
two arguments on (src/src/exceptions.rs lines 44-67 and 81-83). -/
theorem exception_message_display :
    (∀ t : ExcType, Exception.str_with_type ⟨t, []⟩ = t.str ++ ": ") ∧
    (∀ (t : ExcType) (a : Object), Exception.display ⟨t, [a]⟩ = a.display) ∧
    (∀ (t : ExcType) (a : Object),
      Exception.str_with_type ⟨t, [a]⟩ = t.str ++ ": " ++ a.display) ∧
    (∀ (t : ExcType) (a b : Object) (rest : List Object),
      Exception.display ⟨t, a :: b :: rest⟩ =
        "(" ++ a.display ++ ", " ++ b.display ++
          String.join (rest.map (fun x => ", " ++ x.display)) ++ ")") := by
  refine ⟨fun t => ?_, fun t a => rfl, fun t a => ?_, fun t a b rest => rfl⟩
  · show t.str ++ ": " ++ "" = t.str ++ ": "
    simp
  · show t.str ++ ": " ++ Exception.display ⟨t, [a]⟩ = t.str ++ ": " ++ a.display
    rfl

/-- `ParseError` (src/src/parse_error.rs lines 4-10). -/
inductive ParseError where
  | todo (s : String)
  | parsing (s : String)
  | preEval (s : String)
  | internal (s : String)
deriving DecidableEq

/-- Modelled from the spec (§6): the binary operators of the prepared
expression grammar (`crate::types` is not under `src/`). -/
inductive BinOp where
  | add
  | sub
  | mod
deriving DecidableEq

/-- The operator's rendered symbol. -/
def BinOp.symbol : BinOp → String
  | .add => "+"
  | .sub => "-"
  | .mod => "%"

/-- Modelled from the spec: how the pre-evaluator prints a constant in its
error message; pinned by `src/tests/main.rs` (`add_int_str`): integers bare,
strings double-quoted. -/
def Object.reprStr : Object → String
  | .str s => "\"" ++ s ++ "\""
  | .int i => toString i
  | .ref id => "<Ref(" ++ toString id ++ ")>"

/-- Modelled from the spec (§6): prepared expressions (`crate::types` is not
under `src/`): constants, names and binary operations suffice for the claims. -/
inductive Expr0 where
  | constant (o : Object)
  | name (s : String)
  | op (left : Expr0) (o : BinOp) (right : Expr0)

/-- Modelled from the spec: the constant pre-evaluator (`crate::evaluate`,
not under `src/`) applied to one binary operation on two constants; its
observable behavior on `1 + '1'` is pinned by `src/tests/main.rs`
(`parse_error_tests`, `add_int_str`): applying `+` to an `Int` and a `Str`
constant yields the error `Cannot apply operator 1 + "1"`. -/
def evalConstOp : Object → BinOp → Object → Except String Object
  | .int a, .add, .int b => .ok (.int (a + b))
  | .str a, .add, .str b => .ok (.str (a ++ b))
  | l, o, r =>
    .error ("Cannot apply operator " ++ l.reprStr ++ " " ++ o.symbol ++ " "
      ++ r.reprStr)

/-- The constant-folding step of `Prepare::prepare_expression`
(src/src/prepare.rs lines 80-125): an expression whose parts are constants is
evaluated at prepare time, and an evaluation error aborts preparation as a
`ParseError::PreEval` (src/src/parse_error.rs lines 23-27) carrying the
source position, before any of the program runs. -/
def prepareConstFold (position : String) (e : Expr0) : Except ParseError Expr0 :=
  match e with
  | .op (.constant l) o (.constant r) =>
    match evalConstOp l o r with
    | .ok v => .ok (.constant v)
    | .error msg => .error (.preEval ("(" ++ position ++ ") " ++ msg))
  | e => .ok e

/-- Counterexample for C7: the one-statement program `1 + '1'` never runs —
`Executor::new` constant-folds it during prepare and fails with
`ParseError::PreEval("(1:0 - 1:7) Cannot apply operator 1 + \"1\"")`
(pinned by `src/tests/main.rs` lines 51-53), which is a parse-stage error,
not the claimed runtime `TypeError` message. -/
theorem add_int_str_counterexample :
    prepareConstFold "1:0 - 1:7"
      (.op (.constant (.int 1)) .add (.constant (.str "1"))) =
      .error (.preEval "(1:0 - 1:7) Cannot apply operator 1 + \"1\"") ∧
    ("(1:0 - 1:7) Cannot apply operator 1 + \"1\"" : String) ≠
      Exception.str_with_type (Exception.operand_type_error "+" "int" "str") := by
  exact ⟨rfl, by decide⟩

/-- **C7 (amended).** The constant expression `1 + '1'` is rejected at the
prepare stage with `ParseError::PreEval "(1:0 - 1:7) Cannot apply operator
1 + \"1\""`, so the program never runs; the runtime message that
`Exception::operand_type_error` produces for unsupported binary operands
(reached only for non-constant operands) is exactly
`unsupported operand type(s) for +: 'int' and 'str'`
(src/src/prepare.rs lines 80-125, src/src/exceptions.rs lines 120-137,
src/tests/main.rs lines 51-53). -/
theorem add_int_str_corrected :
    prepareConstFold "1:0 - 1:7"
      (.op (.constant (.int 1)) .add (.constant (.str "1"))) =
      .error (.preEval "(1:0 - 1:7) Cannot apply operator 1 + \"1\"") ∧
    operandTypeErrorMsg "+" "int" "str" =
      "unsupported operand type(s) for +: 'int' and 'str'" ∧
    Exception.operand_type_error "+" "int" "str" =
      ⟨.typeError, [.str "unsupported operand type(s) for +: 'int' and 'str'"]⟩ := by
  exact ⟨rfl, rfl, rfl⟩

/-- Modelled from the spec (§3): the `crates/monty` crate's runtime values
(`value.rs`/`heap.rs` of that crate are not under `src/`); heap indirection
plays no role in the builtin claims, so a value is kept as a tree. -/
inductive MValue where
  | vnone
  | vbool (b : Bool)
  | vint (i : Int)
  | vstr (s : String)
  | vlist (xs : List MValue)
  | vtuple (xs : List MValue)

/-- Modelled from the spec (§4.D `py_type`): the type name of a value. -/
def mTypeName : MValue → String
  | .vnone => "NoneType"
  | .vbool _ => "bool"
  | .vint _ => "int"
  | .vstr _ => "str"
  | .vlist _ => "list"
  | .vtuple _ => "tuple"

/-- `SimpleException` of the `crates/monty` crate (not under `src/`),
modelled from the spec (§4.E): an exception kind name plus a message. -/
structure MExc where
  ty : String
  msg : String
deriving DecidableEq

/-- Modelled from the spec (§4.I): `MontyIter` (not under `src/`) iterates
lists, tuples and strings (characterwise); anything else is not iterable. -/
def montyIter : MValue → Except MExc (List MValue)
  | .vlist xs => .ok xs
  | .vtuple xs => .ok xs
  | .vstr s => .ok (s.data.map (fun c => .vstr (Char.toString c)))
  | v => .error ⟨"TypeError", "'" ++ mTypeName v ++ "' object is not iterable"⟩

/-- Modelled from the spec (§4.D, §4.I): `py_add` — numeric immediates add
arithmetically (booleans count as 0/1), `str + str` and `list + list` and
`tuple + tuple` concatenate, every other combination is unsupported and
yields `none`, which the caller turns into a `TypeError`. -/
def pyAddM : MValue → MValue → Option MValue
  | .vint a, .vint b => some (.vint (a + b))
  | .vint a, .vbool b => some (.vint (a + (if b then 1 else 0)))
  | .vbool a, .vint b => some (.vint ((if a then 1 else 0) + b))
  | .vbool a, .vbool b => some (.vint ((if a then 1 else 0) + (if b then 1 else 0)))
  | .vstr a, .vstr b => some (.vstr (a ++ b))
  | .vlist a, .vlist b => some (.vlist (a ++ b))
  | .vtuple a, .vtuple b => some (.vtuple (a ++ b))
  | _, _ => Option.none

/-- The fold loop of `builtin_sum` (src/crates/monty/src/builtins/sum.rs
lines 49-65): add each item to the accumulator; an unsupported addition
raises `ExcType::binary_type_error("+", acc_type, item_type)`, whose message
follows the `unsupported operand type(s)` form. -/
def sumFold : MValue → List MValue → Except MExc MValue
  | acc, [] => .ok acc
  | acc, item :: rest =>
    match pyAddM acc item with
    | some v => sumFold v rest
    | Option.none =>
      .error ⟨"TypeError", operandTypeErrorMsg "+" (mTypeName acc) (mTypeName item)⟩

/-- `builtin_sum` (src/crates/monty/src/builtins/sum.rs lines 19-66): build
the iterator first, then inspect the explicit start value — a `str` start is
rejected with `sum() can't sum strings [use ''.join(seq) instead]`, a missing
start defaults to `Int(0)` — then left-fold the items. -/
def builtinSum (iterable : MValue) (start : Option MValue) : Except MExc MValue :=
  match montyIter iterable with
  | .error e => .error e
  | .ok items =>
    match start with
    | some v =>
      if mTypeName v = "str" then
        .error ⟨"TypeError", "sum() can't sum strings [use ''.join(seq) instead]"⟩
      else
        sumFold v items
    | Option.none => sumFold (.vint 0) items

/-- Counterexample for C6: `sum(['a','b'])` with the default start `0`
reaches the fold with accumulator `Int(0)`, whose first addition `0 + 'a'`
is unsupported, so the raised `TypeError` carries the generic operand
message, not the string-start message the claim names. -/
theorem sum_strings_counterexample :
    builtinSum (.vlist [.vstr "a", .vstr "b"]) Option.none =
      .error ⟨"TypeError", "unsupported operand type(s) for +: 'int' and 'str'"⟩ ∧
    ("unsupported operand type(s) for +: 'int' and 'str'" : String) ≠
      "sum() can't sum strings [use ''.join(seq) instead]" := by
  exact ⟨rfl, by decide⟩

/-- **C6 (amended).** `builtin_sum` raises `TypeError: sum() can't sum
strings [use ''.join(seq) instead]` exactly when the explicit start argument
is a `str` (for any iterable whose iterator construction succeeds);
`sum(['a','b'])` with the defaulted start `0` instead raises
`TypeError: unsupported operand type(s) for +: 'int' and 'str'` from the
fold's first `0 + 'a'` step (src/crates/monty/src/builtins/sum.rs lines
27-41 and 49-65). -/
theorem sum_strings_corrected :
    (∀ (xs : List MValue) (s : String),
      builtinSum (.vlist xs) (some (.vstr s)) =
        .error ⟨"TypeError", "sum() can't sum strings [use ''.join(seq) instead]"⟩) ∧
    builtinSum (.vlist [.vstr "a", .vstr "b"]) Option.none =
      .error ⟨"TypeError", operandTypeErrorMsg "+" "int" "str"⟩ := by
  exact ⟨fun xs s => rfl, rfl⟩

/-- Modelled from the spec (§6): one `sep`/`end` keyword argument to `print`:
omitted, explicitly `None`, or a string. -/
inductive PrintKw where
  | omitted
  | explicitNone
  | strval (s : String)

/-- Modelled from the spec (§6): the separator — defaults to a space, and an
explicit `None` also means the default space. -/
def sepValue : PrintKw → String
  | .omitted => " "
  | .explicitNone => " "
  | .strval s => s

/-- Modelled from the spec (§6): the terminator — defaults to a newline, and
the spec says an explicit `None` is treated as the empty string. -/
def endValue : PrintKw → String
  | .omitted => "\n"
  | .explicitNone => ""
  | .strval s => s

/-- Modelled from the spec (§4.F, §6): what a `Collect` writer accumulates
for one `print` call (the builtin's implementation is not under `src/`):
the argument texts joined by the separator, then the terminator. -/
def printCollect (args : List String) (sep endk : PrintKw) : String :=
  String.intercalate (sepValue sep) args ++ endValue endk

/-- The output the repository's own test `print_end_none`
(src/crates/monty/tests/print_writer.rs lines 181-188) asserts for
`print('hello', end=None)`. -/
def print_end_none_expected : String := "hello\n"

/-- **C8.** The spec-modelled `print` (terminator empty for `end=None`)
collects `"hello"` for `print('hello', end=None)` and `"hello\n"` when `end`
is omitted; but the repository's own test asserts the collected output
`"hello\n"` for `end=None` — contradicting the claim, the spec sentence and
the test's own comment, so the code and its spec disagree on this input. -/
theorem print_end_none_bug :
    printCollect ["hello"] .omitted .explicitNone = "hello" ∧
    printCollect ["hello"] .omitted .omitted = "hello\n" ∧
    printCollect ["a", "b"] .explicitNone .omitted = "a b\n" ∧
    print_end_none_expected = "hello\n" ∧
    printCollect ["hello"] .omitted .explicitNone ≠ print_end_none_expected := by
  refine ⟨?_, ?_, ?_, rfl, ?_⟩
  · show String.intercalate " " ["hello"] ++ "" = "hello"
    decide
  · decide
  · decide
  · decide

end Monty
